import Mathlib

/-!
# Verification of the `calling` WebRTC signaling server (`src/server.js`)

A shallow embedding of the session/room coordinator: the room registry
(a JS `Map` from room name to a `Map` from participant id to the socket),
the per-connection closure state (`currentRoom`, `clientId`,
`isAuthenticated`, the heartbeat flag `isAlive`), and the message handlers
`handleJoin`, `handleOffer`, `handleAnswer`, `handleIceCandidate`,
`handleLeave`, plus the heartbeat reaper.

JS `Map`s are modelled as insertion-ordered association lists: `set` on a
present key replaces the value in place, on an absent key appends; `delete`
removes the key; iteration (`forEach`, `keys()`) follows list order, which
matches the JS `Map` iteration contract. Socket handles are natural
numbers; a send is recorded as a `(handle, message)` pair in the output
list, and a send attempt to a non-open socket is skipped exactly where the
source checks `readyState === OPEN` (`broadcastToRoom`, `sendToClient`);
`ws.send` on the connection that is currently being served is emitted
unconditionally, as in the source. Events delivered to the server — a new
connection, an inbound message on an open socket, transport close/error, a
pong, a heartbeat timer tick — drive a step function on the whole server
state.

JS field truthiness (`!room`, `!offer`, ...) on the string-typed message
fields is modelled by `falsy`: the field is absent (`none`) or the empty
string.
-/

namespace Calling

/-- Socket handle: the identity of one WebSocket connection object. -/
abbrev Handle := Nat

/-- Messages the server sends to clients (coordinator → client vocabulary). -/
inductive SMsg where
  | errorMsg (message : String)
  | joined (room id : String) (participants : Nat)
  | peerJoined (peerId : String) (shouldCreateOffer : Bool)
  | offerMsg (offer : String) (fromId : String)
  | answerMsg (answer : String) (fromId : String)
  | iceMsg (candidate : String) (fromId : String)
  | peerLeft (peerId : String)
  deriving DecidableEq, Repr

/-- Inbound client messages (client → coordinator vocabulary); a field the
client may omit is an `Option`. -/
inductive CMsg where
  | join (room id : Option String)
  | offer (offer targetId : Option String)
  | answer (answer : Option String)
  | ice (candidate : Option String)
  | leave
  deriving DecidableEq, Repr

/-- Per-connection state: the three closure variables of the connection
handler plus the socket's heartbeat flag and open/closed status. -/
structure Conn where
  currentRoom : Option String
  clientId : Option String
  isAuthenticated : Bool
  isAlive : Bool
  isOpen : Bool
  deriving DecidableEq, Repr

/-- A fresh connection: no session, alive, open (`ws.isAlive = true`). -/
def Conn.init : Conn := ⟨none, none, false, true, true⟩

/-- JS string-field truthiness: `!x` holds when the field is absent or the
empty string. -/
def falsy : Option String → Bool
  | none => true
  | some s => s == ""

/-- `Map.get`: first binding of the key, if any. -/
def alookup {α β : Type} [DecidableEq α] : List (α × β) → α → Option β
  | [], _ => none
  | (k, v) :: rest, key => if k = key then some v else alookup rest key

/-- `Map.set`: replace in place when the key is present (JS `Map.set` keeps
the key's insertion position), append when absent. -/
def aset {α β : Type} [DecidableEq α] : List (α × β) → α → β → List (α × β)
  | [], key, v => [(key, v)]
  | (k, w) :: rest, key, v =>
      if k = key then (k, v) :: rest else (k, w) :: aset rest key v

/-- `Map.delete`: remove the key's binding. -/
def aerase {α β : Type} [DecidableEq α] : List (α × β) → α → List (α × β)
  | [], _ => []
  | (k, w) :: rest, key =>
      if k = key then aerase rest key else (k, w) :: aerase rest key

/-- The whole server: the shared room registry `rooms` (room name ↦
participant id ↦ socket handle) and the tracked connections with their
per-connection state. -/
structure ServerState where
  rooms : List (String × List (String × Handle))
  conns : List (Handle × Conn)
  deriving DecidableEq, Repr

/-- The state at process start: no rooms, no connections. -/
def ServerState.init : ServerState := ⟨[], []⟩

/-- `getRoomSize`: participant count, `0` if the room is absent. -/
def getRoomSize (st : ServerState) (roomName : String) : Nat :=
  match alookup st.rooms roomName with
  | some ps => ps.length
  | none => 0

/-- `ws.readyState === WebSocket.OPEN` for a stored handle. -/
def connOpen (st : ServerState) (h : Handle) : Bool :=
  match alookup st.conns h with
  | some c => c.isOpen
  | none => false

/-- Replace connection `h`'s per-connection state. -/
def setConn (st : ServerState) (h : Handle) (c : Conn) : ServerState :=
  { st with conns := aset st.conns h c }

/-- `broadcastToRoom`: send `m` to every participant of the room except
`excludeId`, skipping handles whose socket is not open; the returned list
is the sends performed, in room insertion order. -/
def broadcastToRoom (st : ServerState) (roomName : String) (m : SMsg)
    (excludeId : Option String) : List (Handle × SMsg) :=
  match alookup st.rooms roomName with
  | none => []
  | some ps =>
      (ps.filter fun p => (some p.1 != excludeId) && connOpen st p.2).map
        fun p => (p.2, m)

/-- `sendToClient`: send `m` to the named participant of the room if
present and open. -/
def sendToClient (st : ServerState) (roomName clientId : String)
    (m : SMsg) : List (Handle × SMsg) :=
  match alookup st.rooms roomName with
  | none => []
  | some ps =>
      match alookup ps clientId with
      | some h => if connOpen st h then [(h, m)] else []
      | none => []

/-- The registry half of `handleLeave`: remove the participant from the
room (`participants.delete(clientId)`) and delete the room when it became
empty; a no-op when the room is absent from the registry. -/
def leaveRegistry (st : ServerState) (room cid : String) : ServerState :=
  match alookup st.rooms room with
  | none => st
  | some ps =>
      if (aerase ps cid).length = 0 then
        { st with rooms := aerase st.rooms room }
      else
        { st with rooms := aset st.rooms room (aerase ps cid) }

/-- `handleLeave`: no-op without a current room and id; otherwise notify
the other participants with `peer-left` (broadcast runs before the
removal in the source, and excludes the leaver by id), remove the
participant, delete the room if now empty, and clear the local session
state. -/
def handleLeave (st : ServerState) (h : Handle) :
    ServerState × List (Handle × SMsg) :=
  match alookup st.conns h with
  | none => (st, [])
  | some c =>
      match c.currentRoom, c.clientId with
      | some room, some cid =>
          (setConn (leaveRegistry st room cid) h
            { c with currentRoom := none, clientId := none,
                     isAuthenticated := false },
           broadcastToRoom st room (SMsg.peerLeft cid) (some cid))
      | _, _ => (st, [])

/-- The leave-before-join step: `if (currentRoom && currentRoom !== room)
handleLeave()` — the full leave procedure runs only when the connection
already holds a *different* room. -/
def joinSwitch (st : ServerState) (h : Handle) (c0 : Conn) (roomN : String) :
    ServerState × List (Handle × SMsg) :=
  match c0.currentRoom with
  | some r => if r ≠ roomN then handleLeave st h else (st, [])
  | none => (st, [])

/-- `if (!rooms.has(room)) rooms.set(room, new Map())`. -/
def ensureRoom (st : ServerState) (roomN : String) : ServerState :=
  if alookup st.rooms roomN = none then
    { st with rooms := aset st.rooms roomN [] }
  else st

/-- The pairing block of `handleJoin`: when the room just reached size 2,
the first registered id other than the joiner is told to create the offer
(`peer-joined, shouldCreateOffer = true`, via `sendToClient`), and the
joiner is told to wait (`shouldCreateOffer = false`). -/
def joinPairing (st4 : ServerState) (h : Handle) (roomN idS : String)
    (ps1 : List (String × Handle)) : List (Handle × SMsg) :=
  if ps1.length = 2 then
    match (ps1.map Prod.fst).find? (fun oid => oid != idS) with
    | some other =>
        sendToClient st4 roomN other (SMsg.peerJoined idS true) ++
          [(h, SMsg.peerJoined other false)]
    | none => []
  else []

/-- The updated participant list of the target room after the join's
insert-or-replace (`participants.set(id, ws)`). -/
def joinedRoom (st2 : ServerState) (h : Handle) (roomN idS : String) :
    List (String × Handle) :=
  aset ((alookup st2.rooms roomN).getD []) idS h

/-- The registry and session write of a successful join: store the updated
room and record `currentRoom`/`clientId`/`isAuthenticated` locally. -/
def joinInsert (st2 : ServerState) (h : Handle) (c1 : Conn)
    (roomN idS : String) : ServerState :=
  setConn { st2 with rooms := aset st2.rooms roomN (joinedRoom st2 h roomN idS) }
    h { c1 with currentRoom := some roomN, clientId := some idS,
                isAuthenticated := true }

/-- The body of `handleJoin` after validation and room switching: the
capacity check against the (possibly just created) room, insert-or-replace
of the participant, the local session write, the `joined` acknowledgment,
and the pairing block. -/
def joinCore (st2 : ServerState) (h : Handle) (c1 : Conn) (roomN idS : String) :
    ServerState × List (Handle × SMsg) :=
  if 2 ≤ ((alookup st2.rooms roomN).getD []).length ∧
      alookup ((alookup st2.rooms roomN).getD []) idS = none then
    (st2, [(h, SMsg.errorMsg "Room is full. Maximum 2 participants allowed.")])
  else
    (joinInsert st2 h c1 roomN idS,
      (h, SMsg.joined roomN idS (joinedRoom st2 h roomN idS).length) ::
        joinPairing (joinInsert st2 h c1 roomN idS) h roomN idS
          (joinedRoom st2 h roomN idS))

/-- `joinCore` applied to the post-switch state, with the connection state
as `handleLeave` may have left it. -/
def joinAfterSwitch (st1 : ServerState) (h : Handle) (c0 : Conn)
    (roomN idS : String) : ServerState × List (Handle × SMsg) :=
  joinCore (ensureRoom st1 roomN) h ((alookup st1.conns h).getD c0) roomN idS

/-- `handleJoin`: validate the fields; leave the old room when switching;
create the room if absent; reject when full and the id is new; otherwise
insert-or-replace the participant, record the session locally, acknowledge
with `joined`, and when the room just reached size 2 pair the two
participants. -/
def handleJoin (st : ServerState) (h : Handle) (room id : Option String) :
    ServerState × List (Handle × SMsg) :=
  match alookup st.conns h with
  | none => (st, [])
  | some c0 =>
      if falsy room || falsy id then
        (st, [(h, SMsg.errorMsg "Room name and ID are required")])
      else
        ((joinAfterSwitch (joinSwitch st h c0 (room.getD "")).1 h c0
            (room.getD "") (id.getD "")).1,
         (joinSwitch st h c0 (room.getD "")).2 ++
           (joinAfterSwitch (joinSwitch st h c0 (room.getD "")).1 h c0
             (room.getD "") (id.getD "")).2)

/-- The shared shape of `handleOffer`/`handleAnswer`/`handleIceCandidate`:
dropped silently unless authenticated with a current room and the payload
field present; otherwise broadcast to the current room, excluding the
sender, tagged `from = clientId`. None of the three handlers mutates any
state — they only send. -/
def relayOut (st : ServerState) (h : Handle) (payload : Option String)
    (mk : String → String → SMsg) : List (Handle × SMsg) :=
  match alookup st.conns h with
  | none => []
  | some c =>
      if !c.isAuthenticated || c.currentRoom = none then []
      else if falsy payload then []
      else
        broadcastToRoom st (c.currentRoom.getD "")
          (mk (payload.getD "") (c.clientId.getD "")) (some (c.clientId.getD ""))

/-- `handleOffer`. The `targetId` field is destructured from the message
but never used by the handler. -/
def handleOffer (st : ServerState) (h : Handle)
    (offer targetId : Option String) : ServerState × List (Handle × SMsg) :=
  (st, relayOut st h offer SMsg.offerMsg)

/-- `handleAnswer`. -/
def handleAnswer (st : ServerState) (h : Handle) (answer : Option String) :
    ServerState × List (Handle × SMsg) :=
  (st, relayOut st h answer SMsg.answerMsg)

/-- `handleIceCandidate`. -/
def handleIceCandidate (st : ServerState) (h : Handle)
    (candidate : Option String) : ServerState × List (Handle × SMsg) :=
  (st, relayOut st h candidate SMsg.iceMsg)

/-- Route one inbound message to its handler (the `switch` in the message
callback). -/
def dispatch (st : ServerState) (h : Handle) (m : CMsg) :
    ServerState × List (Handle × SMsg) :=
  match m with
  | .join room id => handleJoin st h room id
  | .offer o t => handleOffer st h o t
  | .answer a => handleAnswer st h a
  | .ice cand => handleIceCandidate st h cand
  | .leave => handleLeave st h

/-- Mark a socket closed (its transport is gone). -/
def markClosed (st : ServerState) (h : Handle) : ServerState :=
  match alookup st.conns h with
  | some c => setConn st h { c with isOpen := false }
  | none => st

/-- `ws.terminate()` and the transport-close path: the socket closes, then
the registered close handler runs `handleLeave`. -/
def terminate (st : ServerState) (h : Handle) :
    ServerState × List (Handle × SMsg) :=
  handleLeave (markClosed st h) h

/-- One connection's turn inside the heartbeat sweep: a dead-flagged open
socket is terminated, a live one has its flag lowered and is pinged. -/
def tickStep (acc : ServerState × List (Handle × SMsg)) (h : Handle) :
    ServerState × List (Handle × SMsg) :=
  match alookup acc.1.conns h with
  | none => acc
  | some c =>
      if c.isOpen then
        if c.isAlive then (setConn acc.1 h { c with isAlive := false }, acc.2)
        else ((terminate acc.1 h).1, acc.2 ++ (terminate acc.1 h).2)
      else acc

/-- One heartbeat interval firing: sweep every tracked connection in
order. -/
def tick (st : ServerState) : ServerState × List (Handle × SMsg) :=
  (st.conns.map Prod.fst).foldl tickStep (st, [])

/-- The events that drive the server. -/
inductive Event where
  | connect (h : Handle)
  | message (h : Handle) (m : CMsg)
  | transportClose (h : Handle)
  | transportError (h : Handle)
  | pong (h : Handle)
  | tick
  deriving DecidableEq, Repr

/-- The server's reaction to one event. A `message` arrives only on an
open socket; a `connect` brings a fresh handle; `pong` raises the
heartbeat flag. -/
def step (st : ServerState) (e : Event) : ServerState × List (Handle × SMsg) :=
  match e with
  | .connect h =>
      if (alookup st.conns h).isSome then (st, [])
      else ({ st with conns := st.conns ++ [(h, Conn.init)] }, [])
  | .message h m => if connOpen st h then dispatch st h m else (st, [])
  | .transportClose h => terminate st h
  | .transportError h => terminate st h
  | .pong h =>
      match alookup st.conns h with
      | some c => (setConn st h { c with isAlive := true }, [])
      | none => (st, [])
  | .tick => tick st

/-- The state reached from process start by a sequence of events. -/
def run (evs : List Event) : ServerState :=
  evs.foldl (fun st e => (step st e).1) ServerState.init

/-! ## Association-list lemmas (the JS `Map` contract) -/

theorem alookup_aset_self {α β : Type} [DecidableEq α]
    (l : List (α × β)) (k : α) (v : β) : alookup (aset l k v) k = some v := by
  induction l with
  | nil => simp [aset, alookup]
  | cons p rest ih =>
      obtain ⟨a, b⟩ := p
      by_cases hak : a = k
      · subst hak; simp [aset, alookup]
      · simp [aset, alookup, hak, ih]

theorem alookup_aset_ne {α β : Type} [DecidableEq α]
    (l : List (α × β)) (k k' : α) (v : β) (hne : k' ≠ k) :
    alookup (aset l k v) k' = alookup l k' := by
  have hne' : k ≠ k' := Ne.symm hne
  induction l with
  | nil => simp [aset, alookup, hne']
  | cons p rest ih =>
      obtain ⟨a, b⟩ := p
      by_cases hak : a = k
      · subst hak
        simp [aset, alookup, hne']
      · by_cases hak' : a = k'
        · subst hak'; simp [aset, alookup, hak]
        · simp [aset, alookup, hak, hak', ih]

theorem length_aset_of_some {α β : Type} [DecidableEq α]
    (l : List (α × β)) (k : α) (v w : β) (hl : alookup l k = some w) :
    (aset l k v).length = l.length := by
  induction l with
  | nil => simp [alookup] at hl
  | cons p rest ih =>
      obtain ⟨a, b⟩ := p
      by_cases hak : a = k
      · subst hak; simp [aset]
      · simp [alookup, hak] at hl
        simp [aset, hak, ih hl]

theorem length_aset_of_none {α β : Type} [DecidableEq α]
    (l : List (α × β)) (k : α) (v : β) (hl : alookup l k = none) :
    (aset l k v).length = l.length + 1 := by
  induction l with
  | nil => simp [aset]
  | cons p rest ih =>
      obtain ⟨a, b⟩ := p
      by_cases hak : a = k
      · subst hak; simp [alookup] at hl
      · simp [alookup, hak] at hl
        simp [aset, hak, ih hl]

theorem map_fst_aset_of_some {α β : Type} [DecidableEq α]
    (l : List (α × β)) (k : α) (v w : β) (hl : alookup l k = some w) :
    (aset l k v).map Prod.fst = l.map Prod.fst := by
  induction l with
  | nil => simp [alookup] at hl
  | cons p rest ih =>
      obtain ⟨a, b⟩ := p
      by_cases hak : a = k
      · subst hak; simp [aset]
      · simp [alookup, hak] at hl
        simp [aset, hak, ih hl]

theorem alookup_aerase_self {α β : Type} [DecidableEq α]
    (l : List (α × β)) (k : α) : alookup (aerase l k) k = none := by
  induction l with
  | nil => simp [aerase, alookup]
  | cons p rest ih =>
      obtain ⟨a, b⟩ := p
      by_cases hak : a = k
      · subst hak; simp [aerase, ih]
      · simp [aerase, alookup, hak, ih]

theorem alookup_aerase_ne {α β : Type} [DecidableEq α]
    (l : List (α × β)) (k k' : α) (hne : k' ≠ k) :
    alookup (aerase l k) k' = alookup l k' := by
  have hne' : k ≠ k' := Ne.symm hne
  induction l with
  | nil => simp [aerase]
  | cons p rest ih =>
      obtain ⟨a, b⟩ := p
      by_cases hak : a = k
      · subst hak
        simp [aerase, alookup, hne', ih]
      · simp [aerase, alookup, hak, ih]

theorem length_aerase_le {α β : Type} [DecidableEq α]
    (l : List (α × β)) (k : α) : (aerase l k).length ≤ l.length := by
  induction l with
  | nil => simp [aerase]
  | cons p rest ih =>
      obtain ⟨a, b⟩ := p
      by_cases hak : a = k
      · subst hak; simp [aerase]; omega
      · simp [aerase, hak]; omega

/-! ## The room-count invariant (C1) -/

/-- Every room present in the registry holds exactly 1 or 2 participants. -/
def roomInv (st : ServerState) : Prop :=
  ∀ r ps, alookup st.rooms r = some ps → ps.length = 1 ∨ ps.length = 2

theorem rooms_setConn (st : ServerState) (h : Handle) (c : Conn) :
    (setConn st h c).rooms = st.rooms := rfl

theorem roomInv_leaveRegistry (st : ServerState) (room cid : String)
    (hinv : roomInv st) : roomInv (leaveRegistry st room cid) := by
  unfold leaveRegistry
  split
  · exact hinv
  · next ps hps =>
      split
      · intro r' ps' hr'
        simp only at hr'
        by_cases hrr : r' = room
        · subst hrr; rw [alookup_aerase_self] at hr'; cases hr'
        · rw [alookup_aerase_ne _ _ _ hrr] at hr'
          exact hinv r' ps' hr'
      · next hlen =>
          intro r' ps' hr'
          simp only at hr'
          by_cases hrr : r' = room
          · subst hrr
            rw [alookup_aset_self] at hr'
            cases hr'
            have h1 := length_aerase_le ps cid
            have h2 := hinv _ ps hps
            omega
          · rw [alookup_aset_ne _ _ _ _ hrr] at hr'
            exact hinv r' ps' hr'

theorem roomInv_handleLeave (st : ServerState) (h : Handle)
    (hinv : roomInv st) : roomInv (handleLeave st h).1 := by
  unfold handleLeave
  split
  · exact hinv
  · split
    · intro r' ps' hr'
      exact roomInv_leaveRegistry _ _ _ hinv r' ps' hr'
    · exact hinv

theorem roomInv_joinCore_general (st2 : ServerState) (h : Handle) (c1 : Conn)
    (roomN idS : String)
    (hside : ∀ r' ps', r' ≠ roomN → alookup st2.rooms r' = some ps' →
      ps'.length = 1 ∨ ps'.length = 2)
    (hown : ∀ ps', alookup st2.rooms roomN = some ps' →
      ps' = [] ∨ ps'.length = 1 ∨ ps'.length = 2) :
    roomInv (joinCore st2 h c1 roomN idS).1 := by
  unfold joinCore
  split
  · next hfull =>
      intro r' ps' hr'
      by_cases hrr : r' = roomN
      · subst hrr
        rcases hown ps' hr' with hemp | hlen
        · subst hemp
          rw [hr'] at hfull
          simp at hfull
        · exact hlen
      · exact hside r' ps' hrr hr'
  · next hfull =>
      intro r' ps' hr'
      unfold joinInsert at hr'
      rw [rooms_setConn] at hr'
      simp only at hr'
      by_cases hrr : r' = roomN
      · subst hrr
        rw [alookup_aset_self] at hr'
        cases hr'
        unfold joinedRoom
        rcases hps : alookup st2.rooms r' with _ | ps
        · simp [aset]
        · simp only [Option.getD_some]
          rcases hown ps hps with hemp | hlen
          · subst hemp; simp [aset]
          · rw [hps] at hfull
            simp only [Option.getD_some] at hfull
            rcases hcase : alookup ps idS with _ | w
            · have h3 := length_aset_of_none ps idS h hcase
              simp [hcase] at hfull
              omega
            · have h3 := length_aset_of_some ps idS h w hcase
              omega
      · rw [alookup_aset_ne _ _ _ _ hrr] at hr'
        exact hside r' ps' hrr hr'

theorem roomInv_joinAfterSwitch (st1 : ServerState) (h : Handle) (c0 : Conn)
    (roomN idS : String) (hinv : roomInv st1) :
    roomInv (joinAfterSwitch st1 h c0 roomN idS).1 := by
  unfold joinAfterSwitch
  apply roomInv_joinCore_general
  · intro r' ps' hrr hr'
    unfold ensureRoom at hr'
    split at hr'
    · simp only at hr'
      rw [alookup_aset_ne _ _ _ _ hrr] at hr'
      exact hinv r' ps' hr'
    · exact hinv r' ps' hr'
  · intro ps' hr'
    unfold ensureRoom at hr'
    split at hr'
    · simp only at hr'
      rw [alookup_aset_self] at hr'
      cases hr'
      left; rfl
    · right; exact hinv roomN ps' hr'

theorem roomInv_handleJoin (st : ServerState) (h : Handle)
    (room id : Option String) (hinv : roomInv st) :
    roomInv (handleJoin st h room id).1 := by
  unfold handleJoin
  split
  · exact hinv
  · next c0 _ =>
      split
      · exact hinv
      · have hsw : roomInv (joinSwitch st h c0 (room.getD "")).1 := by
          unfold joinSwitch
          split
          · split
            · exact roomInv_handleLeave st h hinv
            · exact hinv
          · exact hinv
        exact roomInv_joinAfterSwitch _ h c0 _ _ hsw

theorem roomInv_terminate (st : ServerState) (h : Handle)
    (hinv : roomInv st) : roomInv (terminate st h).1 := by
  unfold terminate
  have hm : roomInv (markClosed st h) := by
    unfold markClosed
    split
    · next c _ => intro r' ps' hr'; exact hinv r' ps' hr'
    · exact hinv
  exact roomInv_handleLeave _ h hm

theorem roomInv_tickStep (acc : ServerState × List (Handle × SMsg))
    (h : Handle) (hinv : roomInv acc.1) : roomInv (tickStep acc h).1 := by
  unfold tickStep
  split
  · exact hinv
  · next c _ =>
      split
      · split
        · exact hinv
        · exact roomInv_terminate acc.1 h hinv
      · exact hinv

theorem roomInv_foldl_tickStep (hs : List Handle)
    (acc : ServerState × List (Handle × SMsg)) (hinv : roomInv acc.1) :
    roomInv (hs.foldl tickStep acc).1 := by
  induction hs generalizing acc with
  | nil => exact hinv
  | cons h t ih => exact ih _ (roomInv_tickStep acc h hinv)

theorem roomInv_step (st : ServerState) (e : Event) (hinv : roomInv st) :
    roomInv (step st e).1 := by
  cases e with
  | connect h =>
      simp only [step]
      split
      · exact hinv
      · intro r' ps' hr'; exact hinv r' ps' hr'
  | message h m =>
      simp only [step]
      split
      · cases m with
        | join room id => exact roomInv_handleJoin st h room id hinv
        | offer o t => exact hinv
        | answer a => exact hinv
        | ice cand => exact hinv
        | leave => exact roomInv_handleLeave st h hinv
      · exact hinv
  | transportClose h => exact roomInv_terminate st h hinv
  | transportError h => exact roomInv_terminate st h hinv
  | pong h =>
      simp only [step]
      split
      · intro r' ps' hr'; exact hinv r' ps' hr'
      · exact hinv
  | tick => exact roomInv_foldl_tickStep _ _ hinv

theorem roomInv_run (evs : List Event) : roomInv (run evs) := by
  have key : ∀ (l : List Event) (st : ServerState), roomInv st →
      roomInv (l.foldl (fun st e => (step st e).1) st) := by
    intro l
    induction l with
    | nil => exact fun st hst => hst
    | cons e t ih => exact fun st hst => ih _ (roomInv_step st e hst)
  exact key evs ServerState.init (by intro r ps hr; cases hr)

/-! ## Shared evaluation lemmas -/

theorem connOpen_setConn_self (st : ServerState) (c : Handle) (kc : Conn) :
    connOpen (setConn st c kc) c = kc.isOpen := by
  unfold connOpen setConn
  simp only [alookup_aset_self]

theorem connOpen_setConn_ne (st : ServerState) (c x : Handle) (kc : Conn)
    (hx : x ≠ c) : connOpen (setConn st c kc) x = connOpen st x := by
  unfold connOpen setConn
  simp only [alookup_aset_ne _ _ _ _ hx]

theorem falsy_of_ne (s : String) (hs : s ≠ "") : falsy (some s) = false := by
  simp [falsy, hs]

theorem joinSwitch_stay (st : ServerState) (c : Handle) (k : Conn) (r : String)
    (hroom : k.currentRoom = none ∨ k.currentRoom = some r) :
    joinSwitch st c k r = (st, []) := by
  unfold joinSwitch
  rcases hroom with h0 | h0 <;> rw [h0]
  simp

theorem ensureRoom_of_some (st : ServerState) (r : String)
    (ps : List (String × Handle)) (hps : alookup st.rooms r = some ps) :
    ensureRoom st r = st := by
  unfold ensureRoom
  rw [hps]
  simp

/-- A join that does not switch rooms reduces to `joinCore` on the
ensured room, with the sender's current connection state. -/
theorem step_join_noswitch (st : ServerState) (c : Handle) (k : Conn)
    (r id : String) (hc : alookup st.conns c = some k)
    (hopen : k.isOpen = true)
    (hroom : k.currentRoom = none ∨ k.currentRoom = some r)
    (hr : r ≠ "") (hid : id ≠ "") :
    step st (Event.message c (CMsg.join (some r) (some id)))
      = joinCore (ensureRoom st r) c k r id := by
  have hco : connOpen st c = true := by
    unfold connOpen; rw [hc]; exact hopen
  simp only [step, hco, if_true, dispatch, handleJoin, hc,
    falsy_of_ne r hr, falsy_of_ne id hid, Bool.or_self, Bool.false_eq_true,
    if_false, joinSwitch_stay st c k r hroom, joinAfterSwitch, Option.getD_some,
    List.nil_append]

/-! ## C1: the room-count invariant over all event sequences -/

/-- C1: along every event sequence from server start, every room present in
the registry has a participant count of exactly 1 or 2 — never 0, never
more than 2. A room is created only by a join that immediately populates
it, and removing its last participant removes the room itself, so an
empty room is never retained. -/
theorem C1_room_count (evs : List Event) (r : String)
    (ps : List (String × Handle))
    (hr : alookup (run evs).rooms r = some ps) :
    ps.length = 1 ∨ ps.length = 2 :=
  roomInv_run evs r ps hr

theorem C1_room_count_witness :
    alookup (run [Event.connect 0,
        Event.message 0 (CMsg.join (some "room1") (some "alice"))]).rooms
        "room1" = some [("alice", 0)] ∧
    ([(("alice" : String), (0 : Handle))].length = 1 ∨
      [(("alice" : String), (0 : Handle))].length = 2) :=
  ⟨by decide,
    C1_room_count
      [Event.connect 0, Event.message 0 (CMsg.join (some "room1") (some "alice"))]
      "room1" [("alice", 0)] (by decide)⟩

/-! ## C2: full-room rejection -/

/-- The reached state for the C2 counterexample: connections 1 and 2 fill
room `r` as `a` and `b`; connection 0 is authenticated in room `q` as
`x`. -/
def stC2 : ServerState :=
  run [Event.connect 0, Event.connect 1, Event.connect 2,
    Event.message 1 (CMsg.join (some "r") (some "a")),
    Event.message 2 (CMsg.join (some "r") (some "b")),
    Event.message 0 (CMsg.join (some "q") (some "x"))]

/-- C2 counterexample: a join of a full room by a sender who currently
holds a different room is refused with the exact error text and leaves the
target room untouched — but the sender's session state is NOT unchanged by
the attempt: the leave-before-join path already cleared it (and here also
deleted the sender's old room) before the capacity check rejected the
join. -/
theorem C2_counterexample :
    (step stC2 (Event.message 0 (CMsg.join (some "r") (some "c")))).2
        = [(0, SMsg.errorMsg "Room is full. Maximum 2 participants allowed.")] ∧
    alookup (step stC2 (Event.message 0 (CMsg.join (some "r") (some "c")))).1.rooms
        "r" = some [("a", 1), ("b", 2)] ∧
    alookup stC2.conns 0 = some ⟨some "q", some "x", true, true, true⟩ ∧
    alookup (step stC2 (Event.message 0 (CMsg.join (some "r") (some "c")))).1.conns
        0 = some ⟨none, none, false, true, true⟩ ∧
    alookup (step stC2 (Event.message 0 (CMsg.join (some "r") (some "c")))).1.rooms
        "q" = none := by
  decide

/-- C2 amended: for every `join(room, id)` where the room already holds 2
participants and `id` is not one of them, sent by a connection that is not
currently authenticated in a *different* room (its current room is unset
or is the target room itself), the sender receives exactly the error
message "Room is full. Maximum 2 participants allowed.", the join is
refused, and the entire server state — the room's membership (ids and
handles) and the sender's session state — is unchanged by the attempt.
(When the sender holds a different room, the leave-before-join step first
removes it from that room and clears its session; the rejection and the
target room's preservation still hold.) -/
theorem C2_full_room_rejection (st : ServerState) (c : Handle) (k : Conn)
    (r id : String) (ps : List (String × Handle))
    (hc : alookup st.conns c = some k) (hopen : k.isOpen = true)
    (hroom : k.currentRoom = none ∨ k.currentRoom = some r)
    (hr : r ≠ "") (hid : id ≠ "")
    (hps : alookup st.rooms r = some ps) (hlen : ps.length = 2)
    (hnew : alookup ps id = none) :
    step st (Event.message c (CMsg.join (some r) (some id)))
      = (st, [(c, SMsg.errorMsg "Room is full. Maximum 2 participants allowed.")]) := by
  rw [step_join_noswitch st c k r id hc hopen hroom hr hid,
    ensureRoom_of_some st r ps hps]
  unfold joinCore
  rw [hps]
  simp [hlen, hnew]

theorem C2_full_room_rejection_witness :
    step ⟨[("r", [("a", 1), ("b", 2)])],
        [(0, Conn.init), (1, ⟨some "r", some "a", true, true, true⟩),
         (2, ⟨some "r", some "b", true, true, true⟩)]⟩
      (Event.message 0 (CMsg.join (some "r") (some "c")))
      = (⟨[("r", [("a", 1), ("b", 2)])],
          [(0, Conn.init), (1, ⟨some "r", some "a", true, true, true⟩),
           (2, ⟨some "r", some "b", true, true, true⟩)]⟩,
         [(0, SMsg.errorMsg "Room is full. Maximum 2 participants allowed.")]) :=
  C2_full_room_rejection
    ⟨[("r", [("a", 1), ("b", 2)])],
     [(0, Conn.init), (1, ⟨some "r", some "a", true, true, true⟩),
      (2, ⟨some "r", some "b", true, true, true⟩)]⟩
    0 Conn.init "r" "c" [("a", 1), ("b", 2)]
    (by decide) (by decide) (Or.inl (by decide)) (by decide) (by decide)
    (by decide) (by decide) (by decide)

/-! ## C3: initiator designation on the 1 → 2 transition -/

/-- Full evaluation of a join that takes a room from one participant
`(o, ho)` (socket open) to two: the resulting state is `joinInsert` and
the sends are the `joined` acknowledgment, the initiator designation to
the existing participant, and the waiter designation to the joiner. -/
theorem join_pair_eval (st : ServerState) (c ho : Handle) (k : Conn)
    (r id o : String)
    (hc : alookup st.conns c = some k) (hopen : k.isOpen = true)
    (hroom : k.currentRoom = none ∨ k.currentRoom = some r)
    (hr : r ≠ "") (hid : id ≠ "")
    (hps : alookup st.rooms r = some [(o, ho)])
    (hne : o ≠ id) (hoOpen : connOpen st ho = true) :
    step st (Event.message c (CMsg.join (some r) (some id)))
      = (joinInsert st c k r id,
         [(c, SMsg.joined r id 2), (ho, SMsg.peerJoined id true),
          (c, SMsg.peerJoined o false)]) := by
  rw [step_join_noswitch st c k r id hc hopen hroom hr hid,
    ensureRoom_of_some st r [(o, ho)] hps]
  have hjr : joinedRoom st c r id = [(o, ho), (id, c)] := by
    unfold joinedRoom
    rw [hps]
    simp [aset, hne]
  have hsend : sendToClient (joinInsert st c k r id) r o
      (SMsg.peerJoined id true) = [(ho, SMsg.peerJoined id true)] := by
    have hrooms : alookup (joinInsert st c k r id).rooms r
        = some [(o, ho), (id, c)] := by
      unfold joinInsert
      rw [rooms_setConn]
      simp only
      rw [hjr]
      exact alookup_aset_self _ _ _
    have hopen2 : connOpen (joinInsert st c k r id) ho = true := by
      unfold joinInsert
      by_cases hhc : ho = c
      · subst hhc
        rw [connOpen_setConn_self]
        exact hopen
      · rw [connOpen_setConn_ne _ _ _ _ hhc]
        exact hoOpen
    unfold sendToClient
    rw [hrooms]
    simp [alookup, hopen2]
  have hpair : joinPairing (joinInsert st c k r id) c r id [(o, ho), (id, c)]
      = [(ho, SMsg.peerJoined id true), (c, SMsg.peerJoined o false)] := by
    unfold joinPairing
    have hbne : (o != id) = true := by simp [bne_iff_ne, hne]
    simp [List.find?, hbne, hsend]
  unfold joinCore
  rw [hps]
  simp only [Option.getD_some]
  rw [if_neg (by simp)]
  simp only [hjr]
  rw [hpair]
  simp

/-- C3: when a join brings a room from size 1 (holding `o` on socket `ho`,
open) to size 2, the send sequence is exactly: the joiner's `joined`
acknowledgment carrying `participants = 2`, then one `peer-joined` with
`shouldCreateOffer = true` to the participant who was already present, then
the joiner's `peer-joined` with `shouldCreateOffer = false` naming the
existing participant — so exactly one of the two receives
`shouldCreateOffer = true`, and it is always the one present first. -/
theorem C3_initiator (st : ServerState) (c ho : Handle) (k : Conn)
    (r id o : String)
    (hc : alookup st.conns c = some k) (hopen : k.isOpen = true)
    (hroom : k.currentRoom = none ∨ k.currentRoom = some r)
    (hr : r ≠ "") (hid : id ≠ "")
    (hps : alookup st.rooms r = some [(o, ho)])
    (hne : o ≠ id) (hoOpen : connOpen st ho = true) :
    (step st (Event.message c (CMsg.join (some r) (some id)))).2
      = [(c, SMsg.joined r id 2), (ho, SMsg.peerJoined id true),
         (c, SMsg.peerJoined o false)] := by
  rw [join_pair_eval st c ho k r id o hc hopen hroom hr hid hps hne hoOpen]

theorem C3_initiator_witness :
    (step ⟨[("room1", [("alice", 1)])],
        [(0, Conn.init), (1, ⟨some "room1", some "alice", true, true, true⟩)]⟩
      (Event.message 0 (CMsg.join (some "room1") (some "bob")))).2
      = [(0, SMsg.joined "room1" "bob" 2), (1, SMsg.peerJoined "bob" true),
         (0, SMsg.peerJoined "alice" false)] :=
  C3_initiator
    ⟨[("room1", [("alice", 1)])],
     [(0, Conn.init), (1, ⟨some "room1", some "alice", true, true, true⟩)]⟩
    0 1 Conn.init "room1" "bob" "alice"
    (by decide) (by decide) (Or.inl (by decide)) (by decide) (by decide)
    (by decide) (by decide) (by decide)

/-! ## C4: verbatim relay to the peer, never echoed to the sender -/

/-- In a two-party room `{a ↦ c, b ↦ hb}` (either registration order), a
relay by the authenticated sender `a` on socket `c` delivers exactly one
message, to `b`'s socket, built from the unmodified payload and
`from = a`. -/
theorem relayOut_two (st : ServerState) (c hb : Handle) (k : Conn)
    (r a b p : String) (mk : String → String → SMsg)
    (hc : alookup st.conns c = some k)
    (hauth : k.isAuthenticated = true) (hroom : k.currentRoom = some r)
    (hcid : k.clientId = some a)
    (hps : alookup st.rooms r = some [(a, c), (b, hb)] ∨
           alookup st.rooms r = some [(b, hb), (a, c)])
    (hba : b ≠ a) (hbOpen : connOpen st hb = true) (hp : p ≠ "") :
    relayOut st c (some p) mk = [(hb, mk p a)] := by
  have h1 : ((some a != some a) && connOpen st c) = false := by simp
  have h2 : ((some b != some a) && connOpen st hb) = true := by
    simp [hbOpen, hba]
  unfold relayOut
  rw [hc]
  simp only [hauth, hroom, hcid, falsy_of_ne p hp, Bool.not_true,
    Bool.false_or, Option.getD_some]
  rw [if_neg (by simp), if_neg (by simp)]
  unfold broadcastToRoom
  rcases hps with h | h <;> rw [h] <;>
    simp [List.filter, h1, h2]

/-- C4: an `offer`, `answer`, or `ice-candidate` from the authenticated
participant `a` (socket `c`) in a room holding exactly `a` and `b` (socket
`hb`, open), with the payload present, is relayed verbatim to `b` tagged
`from = a`, is never delivered to participant `a`, and changes no state. -/
theorem C4_relay (st : ServerState) (c hb : Handle) (k : Conn)
    (r a b p : String) (t : Option String)
    (hc : alookup st.conns c = some k) (hopen : k.isOpen = true)
    (hauth : k.isAuthenticated = true) (hroom : k.currentRoom = some r)
    (hcid : k.clientId = some a)
    (hps : alookup st.rooms r = some [(a, c), (b, hb)] ∨
           alookup st.rooms r = some [(b, hb), (a, c)])
    (hba : b ≠ a) (hbOpen : connOpen st hb = true) (hp : p ≠ "") :
    step st (Event.message c (CMsg.offer (some p) t))
        = (st, [(hb, SMsg.offerMsg p a)]) ∧
    step st (Event.message c (CMsg.answer (some p)))
        = (st, [(hb, SMsg.answerMsg p a)]) ∧
    step st (Event.message c (CMsg.ice (some p)))
        = (st, [(hb, SMsg.iceMsg p a)]) := by
  have hco : connOpen st c = true := by
    unfold connOpen; rw [hc]; exact hopen
  refine ⟨?_, ?_, ?_⟩ <;>
    simp only [step, hco, if_true, dispatch, handleOffer, handleAnswer,
      handleIceCandidate] <;>
    rw [relayOut_two st c hb k r a b p _ hc hauth hroom hcid hps hba hbOpen hp]

theorem C4_relay_witness :
    step ⟨[("r", [("a", 0), ("b", 1)])],
        [(0, ⟨some "r", some "a", true, true, true⟩),
         (1, ⟨some "r", some "b", true, true, true⟩)]⟩
      (Event.message 0 (CMsg.offer (some "SDP") none))
      = (⟨[("r", [("a", 0), ("b", 1)])],
          [(0, ⟨some "r", some "a", true, true, true⟩),
           (1, ⟨some "r", some "b", true, true, true⟩)]⟩,
         [(1, SMsg.offerMsg "SDP" "a")]) :=
  (C4_relay
    ⟨[("r", [("a", 0), ("b", 1)])],
     [(0, ⟨some "r", some "a", true, true, true⟩),
      (1, ⟨some "r", some "b", true, true, true⟩)]⟩
    0 1 ⟨some "r", some "a", true, true, true⟩ "r" "a" "b" "SDP" none
    (by decide) (by decide) (by decide) (by decide) (by decide)
    (Or.inl (by decide)) (by decide) (by decide) (by decide)).1

/-! ## C5: transport close/error runs the leave cleanup -/

theorem alookup_conns_setConn_self (st : ServerState) (c : Handle) (kc : Conn) :
    alookup (setConn st c kc).conns c = some kc := by
  unfold setConn
  exact alookup_aset_self _ _ _

theorem rooms_markClosed (st : ServerState) (c : Handle) :
    (markClosed st c).rooms = st.rooms := by
  unfold markClosed
  split <;> rfl

theorem markClosed_eval (st : ServerState) (c : Handle) (k : Conn)
    (hc : alookup st.conns c = some k) :
    markClosed st c = setConn st c { k with isOpen := false } := by
  unfold markClosed
  rw [hc]

theorem handleLeave_eval (st : ServerState) (c : Handle) (k : Conn)
    (r a : String) (hc : alookup st.conns c = some k)
    (hroom : k.currentRoom = some r) (hcid : k.clientId = some a) :
    handleLeave st c
      = (setConn (leaveRegistry st r a) c
           { k with currentRoom := none, clientId := none,
                    isAuthenticated := false },
         broadcastToRoom st r (SMsg.peerLeft a) (some a)) := by
  unfold handleLeave
  simp only [hc, hroom, hcid]

theorem leaveRegistry_of_nonempty (st : ServerState) (r a : String)
    (ps : List (String × Handle)) (hps : alookup st.rooms r = some ps)
    (hlen : (aerase ps a).length ≠ 0) :
    leaveRegistry st r a = { st with rooms := aset st.rooms r (aerase ps a) } := by
  unfold leaveRegistry
  rw [hps]
  simp [hlen]

theorem leaveRegistry_of_empty (st : ServerState) (r a : String)
    (ps : List (String × Handle)) (hps : alookup st.rooms r = some ps)
    (hlen : (aerase ps a).length = 0) :
    leaveRegistry st r a = { st with rooms := aerase st.rooms r } := by
  unfold leaveRegistry
  rw [hps]
  simp [hlen]

/-- `broadcastToRoom` on a two-party room, excluding one party, delivers
exactly to the other (whose socket is open). -/
theorem broadcastToRoom_two (st : ServerState) (r a b : String)
    (c hb : Handle) (m : SMsg)
    (hps : alookup st.rooms r = some [(a, c), (b, hb)] ∨
           alookup st.rooms r = some [(b, hb), (a, c)])
    (hba : b ≠ a) (hbOpen : connOpen st hb = true) :
    broadcastToRoom st r m (some a) = [(hb, m)] := by
  have h1 : ((some a != some a) && connOpen st c) = false := by simp
  have h2 : ((some b != some a) && connOpen st hb) = true := by
    simp [hbOpen, hba]
  unfold broadcastToRoom
  rcases hps with h | h <;> rw [h] <;> simp [List.filter, h1, h2]

/-- `broadcastToRoom` on a one-party room, excluding that party, delivers
nothing. -/
theorem broadcastToRoom_solo (st : ServerState) (r a : String) (c : Handle)
    (m : SMsg) (hps : alookup st.rooms r = some [(a, c)]) :
    broadcastToRoom st r m (some a) = [] := by
  unfold broadcastToRoom
  rw [hps]
  simp [List.filter]

/-- C5: a transport close (or error) on a connection authenticated in room
`r` as `a` runs exactly the leave cleanup. The two transport events are
one and the same step; in a room of size 2 the one remaining participant
receives exactly one `peer-left` naming `a` and the room is left at size 1
holding only the peer; in a room of size 1 nothing is sent and the room is
removed from the registry entirely; in both cases the connection's local
session state ends cleared, and the resulting registry and sends coincide
with those of an explicit `leave` message. -/
theorem C5_close_is_leave (st : ServerState) (c hb : Handle) (k : Conn)
    (r a b : String)
    (hc : alookup st.conns c = some k) (hopen : k.isOpen = true)
    (hroom : k.currentRoom = some r) (hcid : k.clientId = some a) :
    (step st (Event.transportClose c) = step st (Event.transportError c)) ∧
    ((alookup st.rooms r = some [(a, c), (b, hb)] ∨
        alookup st.rooms r = some [(b, hb), (a, c)]) → b ≠ a → hb ≠ c →
      connOpen st hb = true →
      (step st (Event.transportClose c)).2 = [(hb, SMsg.peerLeft a)] ∧
      alookup (step st (Event.transportClose c)).1.rooms r = some [(b, hb)] ∧
      alookup (step st (Event.transportClose c)).1.conns c
          = some ⟨none, none, false, k.isAlive, false⟩ ∧
      (step st (Event.transportClose c)).1.rooms
          = (step st (Event.message c CMsg.leave)).1.rooms ∧
      (step st (Event.transportClose c)).2
          = (step st (Event.message c CMsg.leave)).2) ∧
    (alookup st.rooms r = some [(a, c)] →
      (step st (Event.transportClose c)).2 = [] ∧
      alookup (step st (Event.transportClose c)).1.rooms r = none ∧
      alookup (step st (Event.transportClose c)).1.conns c
          = some ⟨none, none, false, k.isAlive, false⟩ ∧
      (step st (Event.transportClose c)).1.rooms
          = (step st (Event.message c CMsg.leave)).1.rooms) := by
  have hco : connOpen st c = true := by
    unfold connOpen; rw [hc]; exact hopen
  have hmc : markClosed st c = setConn st c { k with isOpen := false } :=
    markClosed_eval st c k hc
  have hc2 : alookup (markClosed st c).conns c
      = some { k with isOpen := false } := by
    rw [hmc]; exact alookup_conns_setConn_self st c _
  have hclose : step st (Event.transportClose c)
      = (setConn (leaveRegistry (markClosed st c) r a) c
           ⟨none, none, false, k.isAlive, false⟩,
         broadcastToRoom (markClosed st c) r (SMsg.peerLeft a) (some a)) := by
    show terminate st c = _
    unfold terminate
    exact handleLeave_eval (markClosed st c) c { k with isOpen := false } r a
      hc2 hroom hcid
  have hleave : step st (Event.message c CMsg.leave)
      = (setConn (leaveRegistry st r a) c
           ⟨none, none, false, k.isAlive, k.isOpen⟩,
         broadcastToRoom st r (SMsg.peerLeft a) (some a)) := by
    simp only [step, hco, if_true, dispatch]
    exact handleLeave_eval st c k r a hc hroom hcid
  refine ⟨rfl, ?_, ?_⟩
  · intro hps hba hbc hbOpen
    have hmcps : alookup (markClosed st c).rooms r
          = some [(a, c), (b, hb)] ∨
        alookup (markClosed st c).rooms r = some [(b, hb), (a, c)] := by
      rw [rooms_markClosed]; exact hps
    have hbOpen2 : connOpen (markClosed st c) hb = true := by
      rw [hmc, connOpen_setConn_ne _ _ _ _ hbc]; exact hbOpen
    have hbcast2 : broadcastToRoom (markClosed st c) r (SMsg.peerLeft a)
        (some a) = [(hb, SMsg.peerLeft a)] :=
      broadcastToRoom_two _ r a b c hb _ hmcps hba hbOpen2
    have hbcast1 : broadcastToRoom st r (SMsg.peerLeft a) (some a)
        = [(hb, SMsg.peerLeft a)] :=
      broadcastToRoom_two st r a b c hb _ hps hba hbOpen
    have herase : ∀ ps, alookup st.rooms r = some ps →
        (ps = [(a, c), (b, hb)] ∨ ps = [(b, hb), (a, c)]) →
        aerase ps a = [(b, hb)] := by
      intro ps _ hcases
      rcases hcases with rfl | rfl <;> simp [aerase, hba]
    have hlr2 : leaveRegistry (markClosed st c) r a
        = { markClosed st c with rooms := aset st.rooms r [(b, hb)] } := by
      rcases hmcps with hm | hm
      · rw [leaveRegistry_of_nonempty _ r a _ hm (by simp [aerase, hba])]
        rw [rooms_markClosed]
        simp [aerase, hba]
      · rw [leaveRegistry_of_nonempty _ r a _ hm (by simp [aerase, hba])]
        rw [rooms_markClosed]
        simp [aerase, hba]
    have hlr1 : leaveRegistry st r a
        = { st with rooms := aset st.rooms r [(b, hb)] } := by
      rcases hps with hm | hm
      · rw [leaveRegistry_of_nonempty st r a _ hm (by simp [aerase, hba])]
        simp [aerase, hba]
      · rw [leaveRegistry_of_nonempty st r a _ hm (by simp [aerase, hba])]
        simp [aerase, hba]
    refine ⟨by rw [hclose]; exact hbcast2, ?_, ?_, ?_, ?_⟩
    · rw [hclose]
      show alookup (leaveRegistry (markClosed st c) r a).rooms r = _
      rw [hlr2]
      exact alookup_aset_self _ _ _
    · rw [hclose]
      exact alookup_conns_setConn_self _ c _
    · rw [hclose, hleave]
      show (leaveRegistry (markClosed st c) r a).rooms
          = (leaveRegistry st r a).rooms
      rw [hlr2, hlr1]
    · rw [hclose, hleave]
      show broadcastToRoom (markClosed st c) r (SMsg.peerLeft a) (some a)
          = broadcastToRoom st r (SMsg.peerLeft a) (some a)
      rw [hbcast2, hbcast1]
  · intro hps
    have hmcps : alookup (markClosed st c).rooms r = some [(a, c)] := by
      rw [rooms_markClosed]; exact hps
    have hbcast2 : broadcastToRoom (markClosed st c) r (SMsg.peerLeft a)
        (some a) = [] := broadcastToRoom_solo _ r a c _ hmcps
    have hbcast1 : broadcastToRoom st r (SMsg.peerLeft a) (some a) = [] :=
      broadcastToRoom_solo st r a c _ hps
    have hlr2 : leaveRegistry (markClosed st c) r a
        = { markClosed st c with rooms := aerase st.rooms r } := by
      rw [leaveRegistry_of_empty _ r a _ hmcps (by simp [aerase])]
      rw [rooms_markClosed]
    have hlr1 : leaveRegistry st r a
        = { st with rooms := aerase st.rooms r } :=
      leaveRegistry_of_empty st r a _ hps (by simp [aerase])
    refine ⟨by rw [hclose]; exact hbcast2, ?_, ?_, ?_⟩
    · rw [hclose]
      show alookup (leaveRegistry (markClosed st c) r a).rooms r = _
      rw [hlr2]
      exact alookup_aerase_self _ _
    · rw [hclose]
      exact alookup_conns_setConn_self _ c _
    · rw [hclose, hleave]
      show (leaveRegistry (markClosed st c) r a).rooms
          = (leaveRegistry st r a).rooms
      rw [hlr2, hlr1]

theorem C5_close_is_leave_witness :
    ((step ⟨[("room1", [("alice", 0), ("bob", 1)])],
        [(0, ⟨some "room1", some "alice", true, true, true⟩),
         (1, ⟨some "room1", some "bob", true, true, true⟩)]⟩
      (Event.transportClose 0)).2 = [(1, SMsg.peerLeft "alice")]) ∧
    alookup (step ⟨[("room1", [("alice", 0), ("bob", 1)])],
        [(0, ⟨some "room1", some "alice", true, true, true⟩),
         (1, ⟨some "room1", some "bob", true, true, true⟩)]⟩
      (Event.transportClose 0)).1.rooms "room1" = some [("bob", 1)] :=
  let res := (C5_close_is_leave
    ⟨[("room1", [("alice", 0), ("bob", 1)])],
     [(0, ⟨some "room1", some "alice", true, true, true⟩),
      (1, ⟨some "room1", some "bob", true, true, true⟩)]⟩
    0 1 ⟨some "room1", some "alice", true, true, true⟩ "room1" "alice" "bob"
    (by decide) (by decide) (by decide) (by decide)).2.1
    (Or.inl (by decide)) (by decide) (by decide) (by decide)
  ⟨res.1, res.2.1⟩

/-! ## C6: re-joining with a registered id is an idempotent reconnect -/

/-- C6: a `join(r, id)` by socket `c` where `id` is already registered in
room `r` (stored handle `w`) replaces the stored handle with `c` in place:
the room's entry list keeps its length and its id sequence (no duplicate is
created), `id` now maps to `c`, and the sender's session records the
room and id. -/
theorem C6_rejoin (st : ServerState) (c w : Handle) (k : Conn) (r id : String)
    (ps : List (String × Handle))
    (hc : alookup st.conns c = some k) (hopen : k.isOpen = true)
    (hroom : k.currentRoom = none ∨ k.currentRoom = some r)
    (hr : r ≠ "") (hid : id ≠ "")
    (hps : alookup st.rooms r = some ps) (hmem : alookup ps id = some w) :
    alookup (step st (Event.message c (CMsg.join (some r) (some id)))).1.rooms r
        = some (aset ps id c) ∧
    (aset ps id c).length = ps.length ∧
    (aset ps id c).map Prod.fst = ps.map Prod.fst ∧
    alookup (aset ps id c) id = some c ∧
    alookup (step st (Event.message c (CMsg.join (some r) (some id)))).1.conns c
        = some ⟨some r, some id, true, k.isAlive, k.isOpen⟩ := by
  rw [step_join_noswitch st c k r id hc hopen hroom hr hid,
    ensureRoom_of_some st r ps hps]
  have hguard : ¬(2 ≤ ((alookup st.rooms r).getD []).length ∧
      alookup ((alookup st.rooms r).getD []) id = none) := by
    rw [hps]; simp [hmem]
  unfold joinCore
  rw [if_neg hguard]
  refine ⟨?_, length_aset_of_some ps id c w hmem,
    map_fst_aset_of_some ps id c w hmem, alookup_aset_self ps id c, ?_⟩
  · show alookup (joinInsert st c k r id).rooms r = _
    unfold joinInsert
    rw [rooms_setConn]
    show alookup (aset st.rooms r (joinedRoom st c r id)) r = _
    rw [alookup_aset_self]
    unfold joinedRoom
    rw [hps]
    rfl
  · show alookup (joinInsert st c k r id).conns c = _
    unfold joinInsert
    exact alookup_conns_setConn_self _ c _

theorem C6_rejoin_witness :
    alookup (step ⟨[("r", [("a", 7)])], [(0, Conn.init)]⟩
        (Event.message 0 (CMsg.join (some "r") (some "a")))).1.rooms "r"
        = some (aset [("a", 7)] "a" 0) ∧
    (aset [("a", 7)] "a" (0 : Handle)).length = [("a", (7 : Handle))].length ∧
    (aset [("a", 7)] "a" (0 : Handle)).map Prod.fst
        = [("a", (7 : Handle))].map Prod.fst ∧
    alookup (aset [("a", 7)] "a" (0 : Handle)) "a" = some 0 ∧
    alookup (step ⟨[("r", [("a", 7)])], [(0, Conn.init)]⟩
        (Event.message 0 (CMsg.join (some "r") (some "a")))).1.conns 0
        = some ⟨some "r", some "a", true, true, true⟩ :=
  C6_rejoin ⟨[("r", [("a", 7)])], [(0, Conn.init)]⟩ 0 7 Conn.init "r" "a"
    [("a", 7)] (by decide) (by decide) (Or.inl (by decide)) (by decide)
    (by decide) (by decide) (by decide)

/-! ## C7: pre-join or payload-less relay messages are silently dropped -/

/-- C7: an `offer`, `answer`, or `ice-candidate` received from a
connection that is not authenticated or has no current room, or whose
required payload field is absent (missing or empty), produces no reply,
relays nothing, and leaves the entire server state — session state and
room registry — unchanged. -/
theorem C7_silent_drop (st : ServerState) (c : Handle) (k : Conn)
    (hc : alookup st.conns c = some k) (hopen : k.isOpen = true) :
    ((k.isAuthenticated = false ∨ k.currentRoom = none) →
      ∀ p t, step st (Event.message c (CMsg.offer p t)) = (st, []) ∧
        step st (Event.message c (CMsg.answer p)) = (st, []) ∧
        step st (Event.message c (CMsg.ice p)) = (st, [])) ∧
    (∀ p t, falsy p = true →
      step st (Event.message c (CMsg.offer p t)) = (st, []) ∧
      step st (Event.message c (CMsg.answer p)) = (st, []) ∧
      step st (Event.message c (CMsg.ice p)) = (st, [])) := by
  have hco : connOpen st c = true := by
    unfold connOpen; rw [hc]; exact hopen
  constructor
  · intro hcond p t
    have hrel : ∀ mk, relayOut st c p mk = [] := by
      intro mk
      unfold relayOut
      rw [hc]
      rcases hcond with h0 | h0 <;> simp [h0]
    refine ⟨?_, ?_, ?_⟩ <;>
      simp only [step, hco, if_true, dispatch, handleOffer, handleAnswer,
        handleIceCandidate, hrel]
  · intro p t hp
    have hrel : ∀ mk, relayOut st c p mk = [] := by
      intro mk
      unfold relayOut
      rw [hc]
      split
      · rfl
      · rw [hp]
        simp
    refine ⟨?_, ?_, ?_⟩ <;>
      simp only [step, hco, if_true, dispatch, handleOffer, handleAnswer,
        handleIceCandidate, hrel]

theorem C7_silent_drop_witness :
    step ⟨[], [(0, Conn.init)]⟩
        (Event.message 0 (CMsg.offer (some "SDP") none))
      = (⟨[], [(0, Conn.init)]⟩, []) ∧
    step ⟨[], [(0, Conn.init)]⟩ (Event.message 0 (CMsg.answer none))
      = (⟨[], [(0, Conn.init)]⟩, []) :=
  ⟨((C7_silent_drop ⟨[], [(0, Conn.init)]⟩ 0 Conn.init (by decide)
      (by decide)).1 (Or.inl (by decide)) (some "SDP") none).1,
   (((C7_silent_drop ⟨[], [(0, Conn.init)]⟩ 0 Conn.init (by decide)
      (by decide)).2 none none) (by decide)).2.1⟩

/-! ## C8: the heartbeat reaper closes silent connections within two sweeps -/

theorem mem_map_fst_of_alookup {α β : Type} [DecidableEq α]
    (l : List (α × β)) (k : α) (v : β) (h : alookup l k = some v) :
    k ∈ l.map Prod.fst := by
  induction l with
  | nil => simp [alookup] at h
  | cons p rest ih =>
      obtain ⟨a, b⟩ := p
      by_cases hak : a = k
      · subst hak; simp
      · simp only [alookup, if_neg hak] at h
        simp [ih h]

theorem conns_leaveRegistry (st : ServerState) (r a : String) :
    (leaveRegistry st r a).conns = st.conns := by
  unfold leaveRegistry
  split
  · rfl
  · split <;> rfl

theorem handleLeave_conns_ne (st : ServerState) (h x : Handle) (hx : x ≠ h) :
    alookup (handleLeave st h).1.conns x = alookup st.conns x := by
  unfold handleLeave
  split
  · rfl
  · split
    · show alookup (setConn (leaveRegistry st _ _) h _).conns x = _
      unfold setConn
      rw [alookup_aset_ne _ _ _ _ hx, conns_leaveRegistry]
    · rfl

theorem markClosed_conns_ne (st : ServerState) (h x : Handle) (hx : x ≠ h) :
    alookup (markClosed st h).conns x = alookup st.conns x := by
  unfold markClosed
  split
  · unfold setConn
    exact alookup_aset_ne _ _ _ _ hx
  · rfl

theorem terminate_conns_ne (st : ServerState) (h x : Handle) (hx : x ≠ h) :
    alookup (terminate st h).1.conns x = alookup st.conns x := by
  unfold terminate
  rw [handleLeave_conns_ne _ _ _ hx, markClosed_conns_ne _ _ _ hx]

theorem tickStep_conns_ne (acc : ServerState × List (Handle × SMsg))
    (h x : Handle) (hx : x ≠ h) :
    alookup (tickStep acc h).1.conns x = alookup acc.1.conns x := by
  unfold tickStep
  split
  · rfl
  · split
    · split
      · show alookup (setConn acc.1 h _).conns x = _
        unfold setConn
        exact alookup_aset_ne _ _ _ _ hx
      · exact terminate_conns_ne acc.1 h x hx
    · rfl

theorem foldl_tickStep_conns_notmem (hs : List Handle)
    (acc : ServerState × List (Handle × SMsg)) (x : Handle) (hx : x ∉ hs) :
    alookup (hs.foldl tickStep acc).1.conns x = alookup acc.1.conns x := by
  induction hs generalizing acc with
  | nil => rfl
  | cons hh t ih =>
      simp only [List.foldl_cons]
      have hxh : x ≠ hh := fun e => hx (e ▸ List.mem_cons_self hh t)
      rw [ih (tickStep acc hh) (fun hm => hx (List.mem_cons_of_mem hh hm)),
        tickStep_conns_ne acc hh x hxh]

theorem handleLeave_nosession (st : ServerState) (h : Handle) (k : Conn)
    (hk : alookup st.conns h = some k)
    (hns : k.currentRoom = none ∨ k.clientId = none) :
    handleLeave st h = (st, []) := by
  unfold handleLeave
  rw [hk]
  rcases hns with h0 | h0
  · rcases hci : k.clientId with _ | a <;> simp [h0, hci]
  · rcases hcr : k.currentRoom with _ | r <;> simp [h0, hcr]

/-- Any connection record either holds a full session or lacks a room or
an id. -/
theorem conn_session_split (k : Conn) :
    (∃ r a, k.currentRoom = some r ∧ k.clientId = some a) ∨
      k.currentRoom = none ∨ k.clientId = none := by
  rcases hcr : k.currentRoom with _ | r
  · exact Or.inr (Or.inl rfl)
  · rcases hci : k.clientId with _ | a
    · exact Or.inr (Or.inr rfl)
    · exact Or.inl ⟨r, a, rfl, rfl⟩

/-- The effect of `terminate` on the terminated connection's own record:
closed, and session cleared when one was held. -/
theorem terminate_conns_self_isOpen (st : ServerState) (h : Handle) (k : Conn)
    (hk : alookup st.conns h = some k) :
    ∃ k2, alookup (terminate st h).1.conns h = some k2 ∧ k2.isOpen = false := by
  unfold terminate
  rw [markClosed_eval st h k hk]
  rcases conn_session_split k with ⟨r, a, hcr, hci⟩ | hns
  · rw [handleLeave_eval _ h { k with isOpen := false } r a
      (alookup_conns_setConn_self st h _) hcr hci]
    exact ⟨⟨none, none, false, k.isAlive, false⟩,
      alookup_conns_setConn_self _ h _, rfl⟩
  · rw [handleLeave_nosession _ h { k with isOpen := false }
      (alookup_conns_setConn_self st h _) hns]
    exact ⟨{ k with isOpen := false }, alookup_conns_setConn_self st h _, rfl⟩

/-- The effect of one tick-sweep visit on the visited connection's own
record. -/
theorem tickStep_conns_self (acc : ServerState × List (Handle × SMsg))
    (h : Handle) (k : Conn) (hk : alookup acc.1.conns h = some k) :
    ∃ k2, alookup (tickStep acc h).1.conns h = some k2 ∧
      (k.isOpen = false → k2 = k) ∧
      (k.isOpen = true → k.isAlive = true → k2 = { k with isAlive := false }) ∧
      (k.isOpen = true → k.isAlive = false → k2.isOpen = false) := by
  unfold tickStep
  simp only [hk]
  by_cases ho : k.isOpen
  · by_cases ha : k.isAlive
    · refine ⟨{ k with isAlive := false }, ?_, ?_, ?_, ?_⟩
      · simp only [ho, ha, if_true]
        exact alookup_conns_setConn_self acc.1 h _
      · intro h0; rw [ho] at h0; cases h0
      · intro _ _; rfl
      · intro _ h0; rw [ha] at h0; cases h0
    · obtain ⟨k2, hk2, hk2o⟩ := terminate_conns_self_isOpen acc.1 h k hk
      refine ⟨k2, ?_, ?_, ?_, ?_⟩
      · simp only [ho, ha, if_true, Bool.false_eq_true, if_false]
        exact hk2
      · intro h0; rw [ho] at h0; cases h0
      · intro _ h0; rw [h0] at ha; exact absurd rfl ha
      · intro _ _; exact hk2o
  · rw [if_neg ho]
    refine ⟨k, hk, fun _ => rfl, ?_, ?_⟩
    · intro h0; exact absurd h0 ho
    · intro h0; exact absurd h0 ho

/-- One full tick sweep, seen from one tracked connection `c` (handles
distinct): closed stays closed, a live one is marked unconfirmed, an
unconfirmed one is terminated. -/
theorem tick_conns (st : ServerState) (c : Handle) (k : Conn)
    (hnd : (st.conns.map Prod.fst).Nodup)
    (hk : alookup st.conns c = some k) :
    ∃ k2, alookup (tick st).1.conns c = some k2 ∧
      (k.isOpen = false → k2 = k) ∧
      (k.isOpen = true → k.isAlive = true → k2 = { k with isAlive := false }) ∧
      (k.isOpen = true → k.isAlive = false → k2.isOpen = false) := by
  have hmem : c ∈ st.conns.map Prod.fst := mem_map_fst_of_alookup _ c k hk
  obtain ⟨l1, l2, hsplit⟩ := List.append_of_mem hmem
  have hnd' := hnd
  rw [hsplit] at hnd'
  have hdisj := (List.nodup_append.mp hnd').2.2
  have hc1 : c ∉ l1 := fun hm => hdisj hm (List.mem_cons_self c l2)
  have hc2 : c ∉ l2 :=
    (List.nodup_cons.mp (List.nodup_append.mp hnd').2.1).1
  unfold tick
  rw [hsplit, List.foldl_append, List.foldl_cons]
  have hpre : alookup ((l1.foldl tickStep (st, [])).1).conns c = some k := by
    rw [foldl_tickStep_conns_notmem l1 (st, []) c hc1]
    exact hk
  obtain ⟨k2, hk2, hp1, hp2, hp3⟩ :=
    tickStep_conns_self (l1.foldl tickStep (st, [])) c k hpre
  refine ⟨k2, ?_, hp1, hp2, hp3⟩
  rw [foldl_tickStep_conns_notmem l2 _ c hc2]
  exact hk2

theorem tickStep_keys (acc : ServerState × List (Handle × SMsg)) (h : Handle) :
    (tickStep acc h).1.conns.map Prod.fst = acc.1.conns.map Prod.fst := by
  unfold tickStep
  split
  · rfl
  · next k hk =>
      split
      · split
        · show ((setConn acc.1 h _).conns.map Prod.fst) = _
          unfold setConn
          exact map_fst_aset_of_some _ _ _ _ hk
        · show ((terminate acc.1 h).1.conns.map Prod.fst) = _
          unfold terminate
          have hk2 : alookup (markClosed acc.1 h).conns h
              = some { k with isOpen := false } := by
            rw [markClosed_eval acc.1 h k hk]
            exact alookup_conns_setConn_self acc.1 h _
          have hmkeys : (markClosed acc.1 h).conns.map Prod.fst
              = acc.1.conns.map Prod.fst := by
            rw [markClosed_eval acc.1 h k hk]
            exact map_fst_aset_of_some _ _ _ _ hk
          rcases conn_session_split k with ⟨r, a, hcr, hci⟩ | hns
          · rw [handleLeave_eval _ h { k with isOpen := false } r a hk2 hcr hci]
            show ((setConn (leaveRegistry _ r a) h _).conns.map Prod.fst) = _
            unfold setConn
            rw [map_fst_aset_of_some _ _ _ _
              (by rw [conns_leaveRegistry]; exact hk2)]
            rw [conns_leaveRegistry]
            exact hmkeys
          · rw [handleLeave_nosession _ h { k with isOpen := false } hk2 hns]
            exact hmkeys
      · rfl

theorem tick_keys (st : ServerState) :
    (tick st).1.conns.map Prod.fst = st.conns.map Prod.fst := by
  have key : ∀ (hs : List Handle) (acc : ServerState × List (Handle × SMsg)),
      ((hs.foldl tickStep acc).1.conns.map Prod.fst)
        = acc.1.conns.map Prod.fst := by
    intro hs
    induction hs with
    | nil => intro acc; rfl
    | cons hh t ih =>
        intro acc
        simp only [List.foldl_cons]
        rw [ih (tickStep acc hh), tickStep_keys]
  exact key _ _

theorem terminate_eval (st : ServerState) (c : Handle) (k : Conn)
    (r a : String) (hc : alookup st.conns c = some k)
    (hroom : k.currentRoom = some r) (hcid : k.clientId = some a) :
    terminate st c
      = (setConn (leaveRegistry (markClosed st c) r a) c
           ⟨none, none, false, k.isAlive, false⟩,
         broadcastToRoom (markClosed st c) r (SMsg.peerLeft a) (some a)) := by
  unfold terminate
  rw [markClosed_eval st c k hc]
  exact handleLeave_eval _ c { k with isOpen := false } r a
    (alookup_conns_setConn_self st c _) hroom hcid

/-- C8: a connection whose liveness flag is not raised by a pong is closed
by the heartbeat reaper within at most two sweeps (one sweep lowers a
raised flag, the next terminates), and the termination runs the leave
cleanup. Witnessed concretely in a two-connection state: the dead
connection `c` (flag already down, in room `r` as `a` with live peer `d`)
is reaped by a single sweep, which sends exactly one `peer-left` naming
`a` to the peer, leaves the room holding only the peer, and produces the
same registry as an explicit `leave` by `c`. -/
theorem C8_reaper (st : ServerState) (c : Handle) (k : Conn)
    (hnd : (st.conns.map Prod.fst).Nodup)
    (hk : alookup st.conns c = some k) (hopen : k.isOpen = true) :
    (∃ k2, alookup (tick (tick st).1).1.conns c = some k2 ∧
      k2.isOpen = false) ∧
    (∀ (d : Handle) (kd : Conn) (r a b : String),
      st.conns = [(c, k), (d, kd)] → d ≠ c →
      kd.isOpen = true → kd.isAlive = true → k.isAlive = false →
      k.currentRoom = some r → k.clientId = some a →
      (alookup st.rooms r = some [(a, c), (b, d)] ∨
        alookup st.rooms r = some [(b, d), (a, c)]) → b ≠ a →
      (tick st).2 = [(d, SMsg.peerLeft a)] ∧
      alookup (tick st).1.rooms r = some [(b, d)] ∧
      alookup (tick st).1.conns c = some ⟨none, none, false, false, false⟩ ∧
      (tick st).1.rooms = (step st (Event.message c CMsg.leave)).1.rooms) := by
  constructor
  · obtain ⟨k2, hk2, hq1, hq2, hq3⟩ := tick_conns st c k hnd hk
    have hnd2 : ((tick st).1.conns.map Prod.fst).Nodup := by
      rw [tick_keys]; exact hnd
    obtain ⟨k3, hk3, hr1, hr2, hr3⟩ := tick_conns (tick st).1 c k2 hnd2 hk2
    by_cases ha : k.isAlive
    · have e2 : k2 = { k with isAlive := false } := hq2 hopen ha
      have : k3.isOpen = false := by
        apply hr3
        · rw [e2]; exact hopen
        · rw [e2]
      exact ⟨k3, hk3, this⟩
    · have h2o : k2.isOpen = false := hq3 hopen (Bool.not_eq_true _ ▸ ha)
      have e3 : k3 = k2 := hr1 h2o
      exact ⟨k3, hk3, by rw [e3]; exact h2o⟩
  · intro d kd r a b hconns hdc hkdo hkda hka hcr hci hps hba
    have hcd : c ≠ d := fun e => hdc e.symm
    have hlc : alookup st.conns c = some k := hk
    have hld0 : alookup st.conns d = some kd := by
      rw [hconns]
      simp [alookup, hcd]
    have hterm := terminate_eval st c k r a hlc hcr hci
    have hmcps : alookup (markClosed st c).rooms r = some [(a, c), (b, d)] ∨
        alookup (markClosed st c).rooms r = some [(b, d), (a, c)] := by
      rw [rooms_markClosed]; exact hps
    have hdOpen2 : connOpen (markClosed st c) d = true := by
      rw [markClosed_eval st c k hlc, connOpen_setConn_ne _ _ _ _ hdc]
      unfold connOpen
      rw [hld0]
      exact hkdo
    have hbcast2 : broadcastToRoom (markClosed st c) r (SMsg.peerLeft a)
        (some a) = [(d, SMsg.peerLeft a)] :=
      broadcastToRoom_two _ r a b c d _ hmcps hba hdOpen2
    have herase : ∀ ps0, (ps0 = [(a, c), (b, d)] ∨ ps0 = [(b, d), (a, c)]) →
        aerase ps0 a = [(b, d)] := by
      intro ps0 hcases
      rcases hcases with rfl | rfl <;> simp [aerase, hba]
    have hlr2 : leaveRegistry (markClosed st c) r a
        = { markClosed st c with rooms := aset st.rooms r [(b, d)] } := by
      rcases hmcps with hm | hm
      · rw [leaveRegistry_of_nonempty _ r a _ hm (by simp [aerase, hba])]
        rw [rooms_markClosed]
        simp [aerase, hba]
      · rw [leaveRegistry_of_nonempty _ r a _ hm (by simp [aerase, hba])]
        rw [rooms_markClosed]
        simp [aerase, hba]
    have hld : alookup (terminate st c).1.conns d = some kd := by
      rw [terminate_conns_ne st c d hdc]
      exact hld0
    have htick : tick st
        = (setConn (terminate st c).1 d { kd with isAlive := false },
           (terminate st c).2) := by
      unfold tick
      rw [hconns]
      simp only [List.map_cons, List.map_nil, List.foldl_cons, List.foldl_nil]
      have h1 : tickStep (st, ([] : List (Handle × SMsg))) c
          = ((terminate st c).1, (terminate st c).2) := by
        unfold tickStep
        simp only [hlc, hopen, hka]
        simp
      rw [h1]
      unfold tickStep
      simp only [hld, hkdo, hkda, if_true]
    refine ⟨?_, ?_, ?_, ?_⟩
    · rw [htick]
      show (terminate st c).2 = _
      rw [hterm]
      exact hbcast2
    · rw [htick]
      show alookup (terminate st c).1.rooms r = _
      rw [hterm]
      show alookup (leaveRegistry (markClosed st c) r a).rooms r = _
      rw [hlr2]
      exact alookup_aset_self _ _ _
    · rw [htick]
      show alookup (setConn (terminate st c).1 d _).conns c = _
      unfold setConn
      rw [alookup_aset_ne _ _ _ _ hcd, hterm]
      show alookup (setConn (leaveRegistry (markClosed st c) r a) c _).conns c
          = _
      rw [alookup_conns_setConn_self]
      rw [show k.isAlive = false from hka]
    · rw [htick]
      show (terminate st c).1.rooms = _
      have hco : connOpen st c = true := by
        unfold connOpen; rw [hlc]; exact hopen
      have hleave : step st (Event.message c CMsg.leave)
          = (setConn (leaveRegistry st r a) c
               ⟨none, none, false, k.isAlive, k.isOpen⟩,
             broadcastToRoom st r (SMsg.peerLeft a) (some a)) := by
        simp only [step, hco, if_true, dispatch]
        exact handleLeave_eval st c k r a hlc hcr hci
      rw [hterm, hleave]
      show (leaveRegistry (markClosed st c) r a).rooms
          = (leaveRegistry st r a).rooms
      have hlr1 : leaveRegistry st r a
          = { st with rooms := aset st.rooms r [(b, d)] } := by
        rcases hps with hm | hm
        · rw [leaveRegistry_of_nonempty st r a _ hm (by simp [aerase, hba])]
          simp [aerase, hba]
        · rw [leaveRegistry_of_nonempty st r a _ hm (by simp [aerase, hba])]
          simp [aerase, hba]
      rw [hlr2, hlr1]

theorem C8_reaper_witness :
    (∃ k2, alookup (tick (tick ⟨[("room1", [("alice", 0), ("bob", 1)])],
        [(0, ⟨some "room1", some "alice", true, true, true⟩),
         (1, ⟨some "room1", some "bob", true, true, true⟩)]⟩).1).1.conns 0
        = some k2 ∧ k2.isOpen = false) ∧
    ((tick ⟨[("room1", [("alice", 0), ("bob", 1)])],
        [(0, ⟨some "room1", some "alice", true, false, true⟩),
         (1, ⟨some "room1", some "bob", true, true, true⟩)]⟩).2
      = [(1, SMsg.peerLeft "alice")]) :=
  ⟨(C8_reaper ⟨[("room1", [("alice", 0), ("bob", 1)])],
      [(0, ⟨some "room1", some "alice", true, true, true⟩),
       (1, ⟨some "room1", some "bob", true, true, true⟩)]⟩
      0 ⟨some "room1", some "alice", true, true, true⟩
      (by decide) (by decide) (by decide)).1,
   ((C8_reaper ⟨[("room1", [("alice", 0), ("bob", 1)])],
      [(0, ⟨some "room1", some "alice", true, false, true⟩),
       (1, ⟨some "room1", some "bob", true, true, true⟩)]⟩
      0 ⟨some "room1", some "alice", true, false, true⟩
      (by decide) (by decide) (by decide)).2
      1 ⟨some "room1", some "bob", true, true, true⟩ "room1" "alice" "bob"
      (by decide) (by decide) (by decide) (by decide) (by decide) (by decide)
      (by decide) (Or.inl (by decide)) (by decide)).1⟩

/-! ## C9: the offer handler is independent of targetId -/

/-- C9: two `offer` messages from the same sender differing only in their
`targetId` field (absent, or naming anyone) produce the identical step —
the field is destructured but never read — and the delivery is always the
room broadcast excluding the sender (`relayOut`), never a routing to the
named target. -/
theorem C9_targetId_ignored (st : ServerState) (c : Handle)
    (p t1 t2 : Option String) :
    step st (Event.message c (CMsg.offer p t1))
        = step st (Event.message c (CMsg.offer p t2)) ∧
    (step st (Event.message c (CMsg.offer p t1))).2
        = (if connOpen st c then relayOut st c p SMsg.offerMsg else []) := by
  constructor
  · rfl
  · by_cases hco : connOpen st c <;>
      simp [step, dispatch, handleOffer, hco]

/-! ## C10: join with a different id in the same room runs no leave -/

/-- C10: a connection authenticated in room `rm` as `A` that sends
`join(rm, B)` with `B ≠ A` triggers no leave (the leave-before-join path
fires only when the target room differs): `A`'s entry stays in the room,
still mapping to this connection's handle, `B` is inserted alongside it
(capacity allowing), and the connection's local id becomes `B`; a
subsequent explicit leave or transport close then removes only `B`,
leaving `A`'s entry in place. -/
theorem C10_same_room_new_id (st : ServerState) (c : Handle) (k : Conn)
    (rm A B : String)
    (hc : alookup st.conns c = some k) (hopen : k.isOpen = true)
    (hroom : k.currentRoom = some rm) (hcid : k.clientId = some A)
    (hps : alookup st.rooms rm = some [(A, c)])
    (hrm : rm ≠ "") (hB : B ≠ "") (hBA : B ≠ A) :
    alookup (step st (Event.message c (CMsg.join (some rm) (some B)))).1.rooms
        rm = some [(A, c), (B, c)] ∧
    alookup (step st (Event.message c (CMsg.join (some rm) (some B)))).1.conns
        c = some ⟨some rm, some B, true, k.isAlive, k.isOpen⟩ ∧
    (step st (Event.message c (CMsg.join (some rm) (some B)))).2
        = [(c, SMsg.joined rm B 2), (c, SMsg.peerJoined B true),
           (c, SMsg.peerJoined A false)] ∧
    alookup (step (step st (Event.message c (CMsg.join (some rm) (some B)))).1
        (Event.message c CMsg.leave)).1.rooms rm = some [(A, c)] ∧
    alookup (step (step st (Event.message c (CMsg.join (some rm) (some B)))).1
        (Event.transportClose c)).1.rooms rm = some [(A, c)] ∧
    alookup (step (step st (Event.message c (CMsg.join (some rm) (some B)))).1
        (Event.message c CMsg.leave)).1.conns c
        = some ⟨none, none, false, k.isAlive, k.isOpen⟩ := by
  have hAB : A ≠ B := fun e => hBA e.symm
  have hcOpen : connOpen st c = true := by
    unfold connOpen; rw [hc]; exact hopen
  have heval := join_pair_eval st c c k rm B A hc hopen (Or.inr hroom) hrm hB
    hps hAB hcOpen
  rw [heval]
  have hjr : joinedRoom st c rm B = [(A, c), (B, c)] := by
    unfold joinedRoom
    rw [hps]
    simp [aset, hAB]
  have hrooms1 : alookup (joinInsert st c k rm B).rooms rm
      = some [(A, c), (B, c)] := by
    unfold joinInsert
    rw [rooms_setConn]
    show alookup (aset st.rooms rm (joinedRoom st c rm B)) rm = _
    rw [alookup_aset_self, hjr]
  have hconns1 : alookup (joinInsert st c k rm B).conns c
      = some ⟨some rm, some B, true, k.isAlive, k.isOpen⟩ := by
    unfold joinInsert
    exact alookup_conns_setConn_self _ c _
  refine ⟨hrooms1, hconns1, rfl, ?_, ?_, ?_⟩
  · have hleave := handleLeave_eval (joinInsert st c k rm B) c
      ⟨some rm, some B, true, k.isAlive, k.isOpen⟩ rm B hconns1 rfl rfl
    have hco1 : connOpen (joinInsert st c k rm B) c = true := by
      unfold connOpen; rw [hconns1]; exact hopen
    simp only [step, hco1, if_true, dispatch]
    rw [hleave]
    show alookup (leaveRegistry (joinInsert st c k rm B) rm B).rooms rm = _
    rw [leaveRegistry_of_nonempty _ rm B _ hrooms1 (by simp [aerase, hAB])]
    show alookup (aset (joinInsert st c k rm B).rooms rm
      (aerase [(A, c), (B, c)] B)) rm = _
    rw [alookup_aset_self]
    simp [aerase, hAB]
  · have hterm := terminate_eval (joinInsert st c k rm B) c
      ⟨some rm, some B, true, k.isAlive, k.isOpen⟩ rm B hconns1 rfl rfl
    simp only [step]
    rw [hterm]
    show alookup (leaveRegistry (markClosed (joinInsert st c k rm B) c) rm
      B).rooms rm = _
    have hmcrooms : alookup (markClosed (joinInsert st c k rm B) c).rooms rm
        = some [(A, c), (B, c)] := by
      rw [rooms_markClosed]; exact hrooms1
    rw [leaveRegistry_of_nonempty _ rm B _ hmcrooms (by simp [aerase, hAB])]
    show alookup (aset (markClosed (joinInsert st c k rm B) c).rooms rm
      (aerase [(A, c), (B, c)] B)) rm = _
    rw [alookup_aset_self]
    simp [aerase, hAB]
  · have hleave := handleLeave_eval (joinInsert st c k rm B) c
      ⟨some rm, some B, true, k.isAlive, k.isOpen⟩ rm B hconns1 rfl rfl
    have hco1 : connOpen (joinInsert st c k rm B) c = true := by
      unfold connOpen; rw [hconns1]; exact hopen
    simp only [step, hco1, if_true, dispatch]
    rw [hleave]
    exact alookup_conns_setConn_self _ c _

theorem C10_same_room_new_id_witness :
    alookup (step ⟨[("R", [("A", 0)])],
        [(0, ⟨some "R", some "A", true, true, true⟩)]⟩
        (Event.message 0 (CMsg.join (some "R") (some "B")))).1.rooms "R"
        = some [("A", 0), ("B", 0)] ∧
    alookup (step (step ⟨[("R", [("A", 0)])],
        [(0, ⟨some "R", some "A", true, true, true⟩)]⟩
        (Event.message 0 (CMsg.join (some "R") (some "B")))).1
        (Event.message 0 CMsg.leave)).1.rooms "R" = some [("A", 0)] :=
  let res := C10_same_room_new_id
    ⟨[("R", [("A", 0)])], [(0, ⟨some "R", some "A", true, true, true⟩)]⟩
    0 ⟨some "R", some "A", true, true, true⟩ "R" "A" "B"
    (by decide) (by decide) (by decide) (by decide) (by decide)
    (by decide) (by decide) (by decide)
  ⟨res.1, res.2.2.2.1⟩

end Calling
